import Mathlib

/-!
Verification of the PVA VPU executable loader subsystem
(`drivers/video/tegra/host/pva/pva_vpu_exe.h`).

The repository ships the subsystem's header: the data model
(`pva_elf_buffer`, `pva_elf_symbolId`, `pva_elf_image`, `pva_elf_images`)
and the inline query `pva_vpu_elf_is_registered` are source code; the
remaining operations (`pva_load_vpu_app`, `pva_unload_vpu_app`,
`pva_get_vpu_exe_id`, `pva_get_sym_id`, `pva_get_sym_offset`,
`pva_task_acquire_ref_vpu_app`, `pva_task_release_ref_vpu_app`,
`pva_release_vpu_app`, `pva_unload_all_apps`) are declared there but
implemented in a file outside this tree, so they are modelled from the
specification's contracts.  Machine integers are modelled as `Nat`;
DMA buffer allocation is modelled by a fresh-handle allocator recorded
in the context state so that leak/rollback properties are expressible.
-/

set_option autoImplicit false

namespace PvaVpuExe

/-- Error taxonomy of the loader subsystem (spec section 7). -/
inductive PvaErr where
  | InvalidArgument
  | InvalidFormat
  | ResourceExhausted
  | NotFound
  | AlreadyExists
  | ResourceBusy
  | InvalidState
deriving DecidableEq, Repr

instance exceptDecEq {e a : Type} [DecidableEq e] [DecidableEq a] :
    DecidableEq (Except e a) := fun x y =>
  match x, y with
  | .error u, .error v =>
    if h : u = v then .isTrue (by rw [h])
    else .isFalse (by intro hc; cases hc; exact h rfl)
  | .error _, .ok _ => .isFalse (by intro hc; cases hc)
  | .ok _, .error _ => .isFalse (by intro hc; cases hc)
  | .ok u, .ok v =>
    if h : u = v then .isTrue (by rw [h])
    else .isFalse (by intro hc; cases hc; exact h rfl)

/-- Source constant `MAX_NUM_VPU_EXE` = `32U` (pva_vpu_exe.h line 29). -/
def MAX_NUM_VPU_EXE : Nat := 32

/-- Source constant `ELF_MAXIMUM_SYMBOL_LENGTH` = 64 (pva_vpu_exe.h line 28). -/
def ELF_MAXIMUM_SYMBOL_LENGTH : Nat := 64

/-- Modelled from the spec: the per-image symbol bound `MAX_SYMBOLS_PER_IMAGE`
(`NVPVA_TASK_MAX_SYMBOLS` comes from `uapi/linux/nvpva_ioctl.h`, which is not in
the tree; only its existence as a fixed bound is used by the claims). -/
def NVPVA_TASK_MAX_SYMBOLS : Nat := 128

/-- One symbol record as it appears, in order, in the parsed
`PVA_SEG_VPU_IN_PARAMS` segment of an input blob. -/
structure SymRecord where
  name : String
  size : Nat
  addr : Nat
  offset : Nat
deriving DecidableEq, Repr

/-- Source `struct pva_elf_symbolId` (pva_vpu_exe.h lines 74-85). -/
structure pva_elf_symbolId where
  symbol_name : String
  symbolID : Nat
  size : Nat
  addr : Nat
  offset : Nat
deriving DecidableEq, Repr

/-- Source `struct pva_elf_image` (pva_vpu_exe.h lines 90-109).  DMA buffers
(`vpu_bin_buffer`, `vpu_segments_buffer`) are modelled by the handles the
allocator issued for them; `atomic_t submit_refcount` is a `Nat` because the
release path refuses to drive it negative. -/
structure pva_elf_image where
  vpu_bin_buffer : Option Nat
  vpu_segments_buffer : List Nat
  elf_id : Nat
  user_registered : Bool
  submit_refcount : Nat
  num_symbols : Nat
  sym : List pva_elf_symbolId
  symbol_size_total : Nat
deriving DecidableEq, Repr

/-- The reset state of slot `i`: what `memset`-style teardown leaves behind. -/
def emptyImage (i : Nat) : pva_elf_image :=
  { vpu_bin_buffer := none
    vpu_segments_buffer := []
    elf_id := i
    user_registered := false
    submit_refcount := 0
    num_symbols := 0
    sym := []
    symbol_size_total := 0 }

/-- Source `struct pva_elf_images` plus the allocator bookkeeping of
`struct nvpva_elf_context` (pva_vpu_exe.h lines 114-130).  `elf_img` is the
fixed array of `MAX_NUM_VPU_EXE` slots (total function on the index);
`alloctable` is the `unsigned int` occupancy bitmask.  `live_buffers` and
`next_handle` model the DMA allocator: the multiset of currently-allocated
buffer handles and the next fresh handle. -/
structure ElfContext where
  elf_img : Nat → pva_elf_image
  alloctable : Nat
  live_buffers : List Nat
  next_handle : Nat

/-- Point update of the slot array. -/
def updImg (f : Nat → pva_elf_image) (i : Nat) (img : pva_elf_image) :
    Nat → pva_elf_image :=
  fun j => if j = i then img else f j

/-- Allocate one DMA buffer: returns the new context and the fresh handle. -/
def allocBuffer (st : ElfContext) : ElfContext × Nat :=
  ({ st with live_buffers := st.next_handle :: st.live_buffers
             next_handle := st.next_handle + 1 },
   st.next_handle)

/-- Free every buffer whose handle is listed in `hs`. -/
def freeBuffers (st : ElfContext) (hs : List Nat) : ElfContext :=
  { st with live_buffers := st.live_buffers.filter (fun h => decide (h ∉ hs)) }

/-- The initialized context of `pva_vpu_init` (pva_vpu_exe.h line 287) —
all slots empty, occupancy mask zero, no DMA buffers allocated. -/
def pva_vpu_init : ElfContext :=
  { elf_img := fun i => emptyImage i
    alloctable := 0
    live_buffers := []
    next_handle := 0 }

/-- From source: `pva_vpu_elf_is_registered` (pva_vpu_exe.h lines 197-202),
`(exe_id < MAX_NUM_VPU_EXE) && ((d->elf_images->alloctable >> exe_id) & 1U)`.
The `if` mirrors the short-circuit of C `&&`: the shift is evaluated only
under the range check. -/
def pva_vpu_elf_is_registered (st : ElfContext) (exe_id : Nat) : Bool :=
  if exe_id < MAX_NUM_VPU_EXE then ((st.alloctable >>> exe_id) &&& 1) == 1
  else false

/-- C semantics of `x >> n` on `unsigned int`: undefined (here `none`) when
the shift amount reaches the 32-bit width. -/
def shrU32Checked (x n : Nat) : Option Nat :=
  if n < 32 then some (x >>> n) else none

/-- The query `pva_vpu_elf_is_registered` re-run under checked C shift semantics:
`none` would mean the source expression commits undefined behaviour. -/
def is_registered_checked (st : ElfContext) (exe_id : Nat) : Option Bool :=
  if exe_id < MAX_NUM_VPU_EXE then
    match shrU32Checked st.alloctable exe_id with
    | some v => some ((v &&& 1) == 1)
    | none => none
  else some false

/-- Scan the mask for a clear bit starting at `i`, examining at most `fuel`
positions. -/
def scanClear (m i fuel : Nat) : Option Nat :=
  match fuel with
  | 0 => none
  | f + 1 => if m.testBit i then scanClear m (i + 1) f else some i

/-- Lowest clear bit among positions `0 .. MAX_NUM_VPU_EXE - 1`. -/
def lowestClearBit (m : Nat) : Option Nat :=
  scanClear m 0 MAX_NUM_VPU_EXE

/-- Modelled from the spec: `pva_get_vpu_exe_id` (pva_vpu_exe.h line 172,
implementation not in tree).  Spec 4.1: find the lowest-numbered clear bit of
the occupancy mask, set it and return the index; `ResourceExhausted` when all
`MAX_IMAGES` slots are occupied. -/
def pva_get_vpu_exe_id (st : ElfContext) : ElfContext × Except PvaErr Nat :=
  match lowestClearBit st.alloctable with
  | none => (st, .error .ResourceExhausted)
  | some i => ({ st with alloctable := st.alloctable ||| (1 <<< i) }, .ok i)

/-- Modelled from the spec: the slot-release half of the allocator
(spec 4.1 `free(id)`), used by unload and by load's rollback; the caller
guarantees bit `i` is set, so toggling it clears it. -/
def pva_free_exe_id (st : ElfContext) (i : Nat) : ElfContext :=
  { st with alloctable := st.alloctable ^^^ (1 <<< i) }

/-- The structurally-parsed view of an input executable blob (spec 4.2):
header fields, the segment payloads present in the blob, and the symbol
records carried by the `PVA_SEG_VPU_IN_PARAMS` segment, in order. -/
structure ElfBlob where
  magic : Nat
  version : Nat
  num_declared_segments : Nat
  segments : List (List Nat)
  symbols : List SymRecord
deriving DecidableEq, Repr

/-- ELF magic accepted by the header validation (spec 4.2 step 1). -/
def PVA_ELF_MAGIC : Nat := 0x464c457f

/-- Executable-format version accepted by the header validation. -/
def PVA_ELF_VERSION : Nat := 1

/-- Modelled from the spec: structural header validation (spec 4.2 step 1) —
magic, version, and a segment table that is not truncated (the header may not
declare more segments than the blob holds). -/
def blobHeaderOk (b : ElfBlob) : Bool :=
  (b.magic == PVA_ELF_MAGIC) && (b.version == PVA_ELF_VERSION) &&
    (b.num_declared_segments ≤ b.segments.length)

/-- Does the record list repeat a symbol name? (spec 4.2 step 4). -/
def hasDupNames : List SymRecord → Bool
  | [] => false
  | r :: rest => rest.any (fun s => s.name == r.name) || hasDupNames rest

/-- Build the per-image symbol table: IDs are assigned densely, in record
order, starting at `k` (spec 4.3). -/
def mkSyms : Nat → List SymRecord → List pva_elf_symbolId
  | _, [] => []
  | k, r :: rest =>
    { symbol_name := r.name
      symbolID := k
      size := r.size
      addr := r.addr
      offset := r.offset } :: mkSyms (k + 1) rest

/-- Allocate one DMA buffer per declared segment.  `ok k` is the allocation
oracle (does the `k`-th allocation of this load succeed?); the result carries
the context as mutated so far, the handles issued so far (most recent first,
on top of `acc`), and whether every allocation succeeded. -/
def allocSegs (ok : Nat → Bool) :
    Nat → ElfContext → List (List Nat) → List Nat →
    ElfContext × List Nat × Bool
  | _, st, [], acc => (st, acc, true)
  | k, st, _ :: rest, acc =>
    if ok k then
      allocSegs ok (k + 1) (allocBuffer st).1 rest ((allocBuffer st).2 :: acc)
    else (st, acc, false)

/-- All buffer handles owned by an image: its segment buffers and its
bin-info buffer. -/
def imageBuffers (img : pva_elf_image) : List Nat :=
  img.vpu_segments_buffer ++
    (match img.vpu_bin_buffer with
     | some h => [h]
     | none => [])

/-- Modelled from the spec: `pva_load_vpu_app` (pva_vpu_exe.h lines 204-219,
implementation not in tree).  Spec 4.2: validate the header; reserve a slot;
allocate a DMA buffer per declared segment; enforce the symbol-count bound and
reject duplicate names; allocate the bin-info buffer; register.  Any failure
after the slot was reserved frees every buffer allocated during this call and
releases the slot (atomic all-or-nothing).  `ok` is the allocation oracle. -/
def pva_load_vpu_app (ok : Nat → Bool) (st : ElfContext) (b : ElfBlob) :
    ElfContext × Except PvaErr Nat :=
  if blobHeaderOk b then
    match pva_get_vpu_exe_id st with
    | (_, .error e) => (st, .error e)
    | (st1, .ok exe_id) =>
      match allocSegs ok 0 st1 (b.segments.take b.num_declared_segments) [] with
      | (st2, hs, false) =>
        (pva_free_exe_id (freeBuffers st2 hs) exe_id, .error .ResourceExhausted)
      | (st2, hs, true) =>
        if b.symbols.length > NVPVA_TASK_MAX_SYMBOLS then
          (pva_free_exe_id (freeBuffers st2 hs) exe_id,
           .error .ResourceExhausted)
        else if hasDupNames b.symbols then
          (pva_free_exe_id (freeBuffers st2 hs) exe_id, .error .InvalidFormat)
        else
          let st3 := (allocBuffer st2).1
          let hbin := (allocBuffer st2).2
          let img : pva_elf_image :=
            { vpu_bin_buffer := some hbin
              vpu_segments_buffer := hs.reverse
              elf_id := exe_id
              user_registered := true
              submit_refcount := 0
              num_symbols := b.symbols.length
              sym := mkSyms 0 b.symbols
              symbol_size_total := (b.symbols.map SymRecord.size).sum }
          ({ st3 with elf_img := updImg st3.elf_img exe_id img }, .ok exe_id)
  else (st, .error .InvalidFormat)

/-- Modelled from the spec: `pva_unload_vpu_app` (pva_vpu_exe.h lines 221-229,
implementation not in tree).  Spec 4.2: `InvalidArgument` if unregistered;
`ResourceBusy` if the task reference count is positive; otherwise free all
segment buffers, clear the symbol table and return the slot. -/
def pva_unload_vpu_app (st : ElfContext) (exe_id : Nat) :
    ElfContext × Except PvaErr Unit :=
  if pva_vpu_elf_is_registered st exe_id then
    if (st.elf_img exe_id).submit_refcount > 0 then (st, .error .ResourceBusy)
    else
      let st1 := freeBuffers st (imageBuffers (st.elf_img exe_id))
      let st2 :=
        { st1 with elf_img := updImg st1.elf_img exe_id (emptyImage exe_id) }
      (pva_free_exe_id st2 exe_id, .ok ())
  else (st, .error .InvalidArgument)

/-- Unload one slot regardless of its reference count, if registered. -/
def forceUnloadOne (st : ElfContext) (i : Nat) : ElfContext :=
  if pva_vpu_elf_is_registered st i then
    let st1 := freeBuffers st (imageBuffers (st.elf_img i))
    let st2 := { st1 with elf_img := updImg st1.elf_img i (emptyImage i) }
    pva_free_exe_id st2 i
  else st

/-- Modelled from the spec: `pva_unload_all_apps` (pva_vpu_exe.h line 237,
implementation not in tree).  Spec 4.2: best-effort sweep that unloads every
registered image regardless of reference count (context-teardown path). -/
def pva_unload_all_apps (st : ElfContext) : ElfContext :=
  (List.range MAX_NUM_VPU_EXE).foldl forceUnloadOne st

/-- Modelled from the spec: `pva_task_acquire_ref_vpu_app` (pva_vpu_exe.h
lines 247-248, implementation not in tree).  Spec 4.4: `NotFound` if the
image is not registered; otherwise increment `submit_refcount` by one. -/
def pva_task_acquire_ref_vpu_app (st : ElfContext) (exe_id : Nat) :
    ElfContext × Except PvaErr Unit :=
  if pva_vpu_elf_is_registered st exe_id then
    let img := st.elf_img exe_id
    let img2 := { img with submit_refcount := img.submit_refcount + 1 }
    ({ st with elf_img := updImg st.elf_img exe_id img2 }, .ok ())
  else (st, .error .NotFound)

/-- Modelled from the spec: `pva_task_release_ref_vpu_app` (pva_vpu_exe.h
lines 268-269, implementation not in tree).  Spec 4.4: decrement
`submit_refcount`; `InvalidState` if the decrement would take it negative,
leaving the counter untouched. -/
def pva_task_release_ref_vpu_app (st : ElfContext) (exe_id : Nat) :
    ElfContext × Except PvaErr Unit :=
  let img := st.elf_img exe_id
  if img.submit_refcount == 0 then (st, .error .InvalidState)
  else
    let img2 := { img with submit_refcount := img.submit_refcount - 1 }
    ({ st with elf_img := updImg st.elf_img exe_id img2 }, .ok ())

/-- Modelled from the spec: `pva_release_vpu_app` (pva_vpu_exe.h line 258,
implementation not in tree).  Spec 4.4 `releaseUserReg`: clear the
`user_registered` flag; buffers are not freed here — teardown is deferred to
unload. -/
def pva_release_vpu_app (st : ElfContext) (exe_id : Nat) :
    ElfContext × Except PvaErr Unit :=
  if pva_vpu_elf_is_registered st exe_id then
    let img := st.elf_img exe_id
    let img2 := { img with user_registered := false }
    ({ st with elf_img := updImg st.elf_img exe_id img2 }, .ok ())
  else (st, .error .NotFound)

/-- Modelled from the spec: `pva_get_sym_id` (pva_vpu_exe.h lines 146-147,
implementation not in tree).  Spec 4.3 `resolveByName`: lookup scoped to one
image's symbol list; `NotFound` if the id is unregistered or the name is
absent. -/
def pva_get_sym_id (st : ElfContext) (vpu_exe_id : Nat) (sym_name : String) :
    Except PvaErr (Nat × Nat) :=
  if pva_vpu_elf_is_registered st vpu_exe_id then
    match (st.elf_img vpu_exe_id).sym.find?
        (fun s => s.symbol_name == sym_name) with
    | some s => .ok (s.symbolID, s.size)
    | none => .error .NotFound
  else .error .NotFound

/-- Modelled from the spec: `pva_get_sym_offset` (pva_vpu_exe.h lines 186-187,
implementation not in tree).  Spec 4.3 `resolveOffset`: `NotFound` if the
symbol id is not in `[0, num_symbols)` for that image (symbol IDs are the
dense positions of the per-image table). -/
def pva_get_sym_offset (st : ElfContext) (exe_id sym_id : Nat) :
    Except PvaErr Nat :=
  if pva_vpu_elf_is_registered st exe_id then
    match (st.elf_img exe_id).sym.get? sym_id with
    | some s => .ok s.addr
    | none => .error .NotFound
  else .error .NotFound

/-- Number of clear occupancy bits: the allocator's free-slot count. -/
def freeSlotCount (st : ElfContext) : Nat :=
  ((List.range MAX_NUM_VPU_EXE).filter
      (fun i => !st.alloctable.testBit i)).length

/-- Every live buffer handle is below the allocator's next fresh handle. -/
def BuffersFresh (st : ElfContext) : Prop :=
  ∀ h, h ∈ st.live_buffers → h < st.next_handle

/-! ### Bitmask helper lemmas -/

theorem testBit_one_shiftLeft (i j : Nat) :
    (1 <<< i).testBit j = decide (j = i) := by
  rw [Nat.one_shiftLeft]
  rcases eq_or_ne i j with h | h
  · subst h; simp [Nat.testBit_two_pow_self]
  · simp [Nat.testBit_two_pow_of_ne h, Ne.symm h]

theorem testBit_set_bit (m i j : Nat) :
    (m ||| (1 <<< i)).testBit j = if j = i then true else m.testBit j := by
  rw [Nat.testBit_or, testBit_one_shiftLeft]
  rcases eq_or_ne j i with h | h <;> simp [h]

theorem testBit_clear_bit (m i j : Nat) :
    (m ^^^ (1 <<< i)).testBit j =
      if j = i then !m.testBit i else m.testBit j := by
  rw [Nat.testBit_xor, testBit_one_shiftLeft]
  rcases eq_or_ne j i with h | h <;> simp [h, Bool.xor_comm]

theorem set_bit_xor_cancel {m i : Nat} (h : m.testBit i = false) :
    (m ||| (1 <<< i)) ^^^ (1 <<< i) = m := by
  apply Nat.eq_of_testBit_eq
  intro j
  rw [testBit_clear_bit]
  rcases eq_or_ne j i with hj | hj
  · subst hj
    rw [if_pos rfl, testBit_set_bit, if_pos rfl, h]
    rfl
  · rw [if_neg hj, testBit_set_bit, if_neg hj]

theorem set_bit_lt {m i n : Nat} (hm : m < 2 ^ n) (hi : i < n) :
    m ||| (1 <<< i) < 2 ^ n := by
  refine Nat.or_lt_two_pow hm ?_
  rw [Nat.one_shiftLeft]
  exact Nat.pow_lt_pow_right one_lt_two hi

theorem clear_bit_lt {m i n : Nat} (hm : m < 2 ^ n) (hi : i < n) :
    m ^^^ (1 <<< i) < 2 ^ n := by
  refine Nat.xor_lt_two_pow hm ?_
  rw [Nat.one_shiftLeft]
  exact Nat.pow_lt_pow_right one_lt_two hi

/-- The source expression `(alloctable >> exe_id) & 1U` agrees with
`Nat.testBit` under the range guard. -/
theorem isReg_eq_testBit (st : ElfContext) {exe_id : Nat}
    (h : exe_id < MAX_NUM_VPU_EXE) :
    pva_vpu_elf_is_registered st exe_id = st.alloctable.testBit exe_id := by
  simp only [pva_vpu_elf_is_registered, if_pos h, Nat.testBit_to_div_mod,
    Nat.and_one_is_mod, Nat.shiftRight_eq_div_pow]
  rcases Nat.mod_two_eq_zero_or_one (st.alloctable / 2 ^ exe_id) with h2 | h2 <;>
    simp [h2]

theorem isReg_oob {st : ElfContext} {exe_id : Nat}
    (h : MAX_NUM_VPU_EXE ≤ exe_id) :
    pva_vpu_elf_is_registered st exe_id = false := by
  simp [pva_vpu_elf_is_registered, Nat.not_lt.mpr h]

/-! ### Clear-bit scanner lemmas -/

theorem scanClear_some {m : Nat} :
    ∀ {f s i : Nat}, scanClear m s f = some i →
      s ≤ i ∧ i < s + f ∧ m.testBit i = false ∧
        ∀ j, s ≤ j → j < i → m.testBit j = true := by
  intro f
  induction f with
  | zero => intro s i h; simp [scanClear] at h
  | succ f ih =>
    intro s i h
    simp only [scanClear] at h
    by_cases hb : m.testBit s
    · rw [if_pos hb] at h
      obtain ⟨h1, h2, h3, h4⟩ := ih h
      refine ⟨by omega, by omega, h3, ?_⟩
      intro j hj1 hj2
      rcases Nat.eq_or_lt_of_le hj1 with hj | hj
      · rw [← hj]; exact hb
      · exact h4 j hj hj2
    · rw [if_neg hb] at h
      cases h
      exact ⟨Nat.le_refl _, by omega, by simpa using hb, fun j hj1 hj2 => by omega⟩

theorem scanClear_none {m : Nat} :
    ∀ {f s : Nat}, scanClear m s f = none →
      ∀ j, s ≤ j → j < s + f → m.testBit j = true := by
  intro f
  induction f with
  | zero => intro s _ j hj1 hj2; omega
  | succ f ih =>
    intro s h j hj1 hj2
    simp only [scanClear] at h
    by_cases hb : m.testBit s
    · rw [if_pos hb] at h
      rcases Nat.eq_or_lt_of_le hj1 with hj | hj
      · rw [← hj]; exact hb
      · exact ih h j hj (by omega)
    · rw [if_neg hb] at h; cases h

theorem lowestClearBit_some {m i : Nat} (h : lowestClearBit m = some i) :
    i < MAX_NUM_VPU_EXE ∧ m.testBit i = false ∧
      ∀ j, j < i → m.testBit j = true := by
  obtain ⟨_, h2, h3, h4⟩ := scanClear_some h
  exact ⟨by simpa using h2, h3, fun j hj => h4 j (Nat.zero_le j) hj⟩

theorem lowestClearBit_none {m : Nat} (h : lowestClearBit m = none) :
    ∀ j, j < MAX_NUM_VPU_EXE → m.testBit j = true := by
  intro j hj
  exact scanClear_none h j (Nat.zero_le j) (by simpa using hj)

/-! ### Buffer-allocator lemmas -/

theorem filter_notMem_restore {new old hs : List Nat}
    (h1 : ∀ x ∈ new, x ∈ hs) (h2 : ∀ x ∈ old, x ∉ hs) :
    (new ++ old).filter (fun h => decide (h ∉ hs)) = old := by
  rw [List.filter_append]
  have e1 : new.filter (fun h => decide (h ∉ hs)) = [] := by
    rw [List.filter_eq_nil_iff]
    intro a ha
    simpa using h1 a ha
  have e2 : old.filter (fun h => decide (h ∉ hs)) = old := by
    rw [List.filter_eq_self]
    intro a ha
    simpa using h2 a ha
  rw [e1, e2, List.nil_append]

/-- Full characterization of the segment-allocation loop. -/
theorem allocSegs_spec (ok : Nat → Bool) :
    ∀ (l : List (List Nat)) (k : Nat) (st : ElfContext) (acc : List Nat),
      (allocSegs ok k st l acc).1.elf_img = st.elf_img ∧
      (allocSegs ok k st l acc).1.alloctable = st.alloctable ∧
      st.next_handle ≤ (allocSegs ok k st l acc).1.next_handle ∧
      ∃ new : List Nat,
        (allocSegs ok k st l acc).2.1 = new ++ acc ∧
        (allocSegs ok k st l acc).1.live_buffers = new ++ st.live_buffers ∧
        ∀ h ∈ new, st.next_handle ≤ h ∧
          h < (allocSegs ok k st l acc).1.next_handle := by
  intro l
  induction l with
  | nil =>
    intro k st acc
    exact ⟨rfl, rfl, Nat.le_refl _, [], rfl, rfl, by simp⟩
  | cons seg rest ih =>
    intro k st acc
    by_cases hk : ok k
    · obtain ⟨e1, e2, e3, new, f1, f2, f3⟩ :=
        ih (k + 1)
          { st with live_buffers := st.next_handle :: st.live_buffers
                    next_handle := st.next_handle + 1 }
          (st.next_handle :: acc)
      have hstep : allocSegs ok k st (seg :: rest) acc =
          allocSegs ok (k + 1)
            { st with live_buffers := st.next_handle :: st.live_buffers
                      next_handle := st.next_handle + 1 }
            rest (st.next_handle :: acc) := by
        simp [allocSegs, hk, allocBuffer]
      rw [hstep]
      have e1' : (allocSegs ok (k + 1)
          { st with live_buffers := st.next_handle :: st.live_buffers
                    next_handle := st.next_handle + 1 }
          rest (st.next_handle :: acc)).1.elf_img = st.elf_img := e1
      have e2' : (allocSegs ok (k + 1)
          { st with live_buffers := st.next_handle :: st.live_buffers
                    next_handle := st.next_handle + 1 }
          rest (st.next_handle :: acc)).1.alloctable = st.alloctable := e2
      have e3' : st.next_handle + 1 ≤ (allocSegs ok (k + 1)
          { st with live_buffers := st.next_handle :: st.live_buffers
                    next_handle := st.next_handle + 1 }
          rest (st.next_handle :: acc)).1.next_handle := e3
      have f2' : (allocSegs ok (k + 1)
          { st with live_buffers := st.next_handle :: st.live_buffers
                    next_handle := st.next_handle + 1 }
          rest (st.next_handle :: acc)).1.live_buffers =
            new ++ (st.next_handle :: st.live_buffers) := f2
      refine ⟨e1', e2', by omega, new ++ [st.next_handle], ?_, ?_, ?_⟩
      · rw [f1]; simp
      · rw [f2']; simp
      · intro h hh
        rcases List.mem_append.mp hh with hh | hh
        · have hb := f3 h hh
          have hb1 : st.next_handle + 1 ≤ h := hb.1
          exact ⟨by omega, hb.2⟩
        · simp only [List.mem_singleton] at hh
          subst hh
          exact ⟨Nat.le_refl _, by omega⟩
    · have hstep : allocSegs ok k st (seg :: rest) acc = (st, acc, false) := by
        simp [allocSegs, hk]
      rw [hstep]
      exact ⟨rfl, rfl, Nat.le_refl _, [], rfl, rfl, by simp⟩

/-! ### Symbol-table construction lemmas -/

theorem mkSyms_length (k : Nat) (l : List SymRecord) :
    (mkSyms k l).length = l.length := by
  induction l generalizing k with
  | nil => rfl
  | cons r rest ih => simp [mkSyms, ih]

theorem mkSyms_get (l : List SymRecord) :
    ∀ (k j : Nat) (hj : j < (mkSyms k l).length),
      (mkSyms k l).get ⟨j, hj⟩ =
        { symbol_name := (l.get ⟨j, by rw [← mkSyms_length k l]; exact hj⟩).name
          symbolID := k + j
          size := (l.get ⟨j, by rw [← mkSyms_length k l]; exact hj⟩).size
          addr := (l.get ⟨j, by rw [← mkSyms_length k l]; exact hj⟩).addr
          offset :=
            (l.get ⟨j, by rw [← mkSyms_length k l]; exact hj⟩).offset } := by
  induction l with
  | nil => intro k j hj; simp [mkSyms] at hj
  | cons r rest ih =>
    intro k j hj
    cases j with
    | zero => simp [mkSyms]
    | succ j =>
      have hj' : j < (mkSyms (k + 1) rest).length := by
        simpa [mkSyms] using hj
      have := ih (k + 1) j hj'
      simp only [mkSyms, List.get] at this ⊢
      rw [this]
      have harith : k + 1 + j = k + (j + 1) := by omega
      simp [harith]

theorem mkSyms_symbolID_get (l : List SymRecord) (j : Nat)
    (hj : j < (mkSyms 0 l).length) :
    ((mkSyms 0 l).get ⟨j, hj⟩).symbolID = j := by
  rw [mkSyms_get l 0 j hj]
  simp

theorem mkSyms_map_symbolID (l : List SymRecord) :
    (mkSyms 0 l).map pva_elf_symbolId.symbolID = List.range l.length := by
  apply List.ext_get
  · simp [mkSyms_length]
  · intro n h1 h2
    rw [List.get_map, List.get_range]
    exact mkSyms_symbolID_get l n _

theorem mkSyms_map_name (l : List SymRecord) :
    (mkSyms 0 l).map pva_elf_symbolId.symbol_name = l.map SymRecord.name := by
  apply List.ext_get
  · simp [mkSyms_length]
  · intro n h1 h2
    rw [List.get_map, List.get_map]
    rw [mkSyms_get l 0 n _]

/-! ### Slot-allocator specification lemmas -/

theorem get_exe_id_ok {st st' : ElfContext} {i : Nat}
    (h : pva_get_vpu_exe_id st = (st', .ok i)) :
    i < MAX_NUM_VPU_EXE ∧ st.alloctable.testBit i = false ∧
      (∀ j, j < i → st.alloctable.testBit j = true) ∧
      st' = { st with alloctable := st.alloctable ||| (1 <<< i) } := by
  unfold pva_get_vpu_exe_id at h
  rcases hl : lowestClearBit st.alloctable with _ | b
  · rw [hl] at h; cases h
  · rw [hl] at h
    obtain ⟨h1, h2⟩ := Prod.mk.injEq .. ▸ h
    cases h2
    obtain ⟨g1, g2, g3⟩ := lowestClearBit_some hl
    exact ⟨g1, g2, g3, h1.symm⟩

theorem get_exe_id_exhausted {st : ElfContext} :
    (pva_get_vpu_exe_id st).2 = .error .ResourceExhausted ↔
      ∀ j, j < MAX_NUM_VPU_EXE → st.alloctable.testBit j = true := by
  unfold pva_get_vpu_exe_id
  rcases hl : lowestClearBit st.alloctable with _ | b
  · simpa using lowestClearBit_none hl
  · simp only
    constructor
    · intro h; cases h
    · intro h
      obtain ⟨g1, g2, _⟩ := lowestClearBit_some hl
      rw [h b g1] at g2
      cases g2

/-! ### Operation-level specification lemmas -/

theorem isReg_true_iff {st : ElfContext} {i : Nat} :
    pva_vpu_elf_is_registered st i = true ↔
      i < MAX_NUM_VPU_EXE ∧ st.alloctable.testBit i = true := by
  constructor
  · intro h
    by_cases hi : i < MAX_NUM_VPU_EXE
    · exact ⟨hi, by rw [← isReg_eq_testBit st hi]; exact h⟩
    · rw [isReg_oob (Nat.not_lt.mp hi)] at h; cases h
  · intro ⟨h1, h2⟩
    rw [isReg_eq_testBit st h1]
    exact h2

theorem unload_unreg {st : ElfContext} {i : Nat}
    (h : pva_vpu_elf_is_registered st i = false) :
    pva_unload_vpu_app st i = (st, .error .InvalidArgument) := by
  simp [pva_unload_vpu_app, h]

theorem unload_busy {st : ElfContext} {i : Nat}
    (hreg : pva_vpu_elf_is_registered st i = true)
    (href : 0 < (st.elf_img i).submit_refcount) :
    pva_unload_vpu_app st i = (st, .error .ResourceBusy) := by
  simp [pva_unload_vpu_app, hreg, href]

theorem unload_ok {st : ElfContext} {i : Nat}
    (hreg : pva_vpu_elf_is_registered st i = true)
    (href : (st.elf_img i).submit_refcount = 0) :
    pva_unload_vpu_app st i =
      (pva_free_exe_id
        { freeBuffers st (imageBuffers (st.elf_img i)) with
            elf_img :=
              updImg (freeBuffers st (imageBuffers (st.elf_img i))).elf_img i
                (emptyImage i) } i,
       .ok ()) := by
  simp [pva_unload_vpu_app, hreg, href]

theorem acquire_unreg {st : ElfContext} {i : Nat}
    (h : pva_vpu_elf_is_registered st i = false) :
    pva_task_acquire_ref_vpu_app st i = (st, .error .NotFound) := by
  simp [pva_task_acquire_ref_vpu_app, h]

theorem acquire_ok {st : ElfContext} {i : Nat}
    (h : pva_vpu_elf_is_registered st i = true) :
    pva_task_acquire_ref_vpu_app st i =
      ({ st with
          elf_img := updImg st.elf_img i { st.elf_img i with
            submit_refcount := (st.elf_img i).submit_refcount + 1 } },
       .ok ()) := by
  simp [pva_task_acquire_ref_vpu_app, h]

theorem release_underflow {st : ElfContext} {i : Nat}
    (h : (st.elf_img i).submit_refcount = 0) :
    pva_task_release_ref_vpu_app st i = (st, .error .InvalidState) := by
  simp [pva_task_release_ref_vpu_app, h]

theorem release_ok {st : ElfContext} {i : Nat}
    (h : 0 < (st.elf_img i).submit_refcount) :
    pva_task_release_ref_vpu_app st i =
      ({ st with
          elf_img := updImg st.elf_img i { st.elf_img i with
            submit_refcount := (st.elf_img i).submit_refcount - 1 } },
       .ok ()) := by
  have h0 : ((st.elf_img i).submit_refcount == 0) = false := by
    simp; omega
  simp [pva_task_release_ref_vpu_app, h0]

theorem releaseUser_unreg {st : ElfContext} {i : Nat}
    (h : pva_vpu_elf_is_registered st i = false) :
    pva_release_vpu_app st i = (st, .error .NotFound) := by
  simp [pva_release_vpu_app, h]

theorem releaseUser_ok {st : ElfContext} {i : Nat}
    (h : pva_vpu_elf_is_registered st i = true) :
    pva_release_vpu_app st i =
      ({ st with
          elf_img := updImg st.elf_img i { st.elf_img i with
            user_registered := false } },
       .ok ()) := by
  simp [pva_release_vpu_app, h]

theorem updImg_same (f : Nat -> pva_elf_image) (i : Nat)
    (img : pva_elf_image) : updImg f i img i = img := by
  simp [updImg]

theorem updImg_other (f : Nat -> pva_elf_image) {i j : Nat}
    (img : pva_elf_image) (h : j ≠ i) : updImg f i img j = f j := by
  simp [updImg, h]

/-! ### Load-path specification lemmas -/

theorem load_ok_spec {ok : Nat → Bool} {st : ElfContext} {b : ElfBlob}
    {i : Nat} (h : (pva_load_vpu_app ok st b).2 = .ok i) :
    i < MAX_NUM_VPU_EXE ∧
    st.alloctable.testBit i = false ∧
    (∀ j, j < i → st.alloctable.testBit j = true) ∧
    (pva_load_vpu_app ok st b).1.alloctable = st.alloctable ||| (1 <<< i) ∧
    ∃ newHs hbin,
      (pva_load_vpu_app ok st b).1.elf_img =
        updImg st.elf_img i
          { vpu_bin_buffer := some hbin
            vpu_segments_buffer := newHs.reverse
            elf_id := i
            user_registered := true
            submit_refcount := 0
            num_symbols := b.symbols.length
            sym := mkSyms 0 b.symbols
            symbol_size_total := (b.symbols.map SymRecord.size).sum } ∧
      (pva_load_vpu_app ok st b).1.live_buffers =
        hbin :: newHs ++ st.live_buffers ∧
      (∀ h2, h2 ∈ newHs → st.next_handle ≤ h2 ∧ h2 < hbin) ∧
      st.next_handle ≤ hbin ∧
      hbin < (pva_load_vpu_app ok st b).1.next_handle := by
  by_cases hhdr : blobHeaderOk b = true
  case neg =>
    exfalso
    simp [pva_load_vpu_app, hhdr] at h
  rcases hslot : pva_get_vpu_exe_id st with ⟨st1, r⟩
  rcases r with e | exe_id
  · exfalso
    simp [pva_load_vpu_app, hhdr, hslot] at h
  rcases halloc : allocSegs ok 0 st1 (b.segments.take b.num_declared_segments)
      [] with ⟨st2, hs, suc⟩
  rcases suc with _ | _
  · exfalso
    simp [pva_load_vpu_app, hhdr, hslot, halloc] at h
  by_cases hsym : b.symbols.length > NVPVA_TASK_MAX_SYMBOLS
  case pos =>
    exfalso
    simp [pva_load_vpu_app, hhdr, hslot, halloc, hsym] at h
  by_cases hdup : hasDupNames b.symbols = true
  case pos =>
    exfalso
    simp [pva_load_vpu_app, hhdr, hslot, halloc, hsym, hdup] at h
  have hred : pva_load_vpu_app ok st b =
      ({ (allocBuffer st2).1 with
          elf_img := updImg (allocBuffer st2).1.elf_img exe_id
            { vpu_bin_buffer := some (allocBuffer st2).2
              vpu_segments_buffer := hs.reverse
              elf_id := exe_id
              user_registered := true
              submit_refcount := 0
              num_symbols := b.symbols.length
              sym := mkSyms 0 b.symbols
              symbol_size_total := (b.symbols.map SymRecord.size).sum } },
       .ok exe_id) := by
    simp [pva_load_vpu_app, hhdr, hslot, halloc, hsym, hdup]
  rw [hred] at h ⊢
  have hi : exe_id = i := by simpa using h
  subst hi
  obtain ⟨g1, g2, g3, hst1⟩ := get_exe_id_ok hslot
  obtain ⟨a1, a2, a3, new, k1, k2, k3⟩ :=
    allocSegs_spec ok (b.segments.take b.num_declared_segments) 0 st1 []
  rw [halloc] at a1 a2 a3 k1 k2 k3
  have a1' : st2.elf_img = st1.elf_img := a1
  have a2' : st2.alloctable = st1.alloctable := a2
  have a3' : st1.next_handle ≤ st2.next_handle := a3
  have k1' : hs = new ++ [] := k1
  have k2' : st2.live_buffers = new ++ st1.live_buffers := k2
  have k3' : ∀ h2 ∈ new, st1.next_handle ≤ h2 ∧ h2 < st2.next_handle := k3
  have hsnew : hs = new := by simpa using k1'
  subst hsnew
  subst hst1
  refine ⟨g1, g2, g3, ?_, hs, st2.next_handle, ?_, ?_, ?_, ?_, ?_⟩
  · show st2.alloctable = st.alloctable ||| (1 <<< exe_id)
    rw [a2']
  · show updImg st2.elf_img exe_id _ = updImg st.elf_img exe_id _
    rw [a1']
    rfl
  · show st2.next_handle :: st2.live_buffers =
      st2.next_handle :: hs ++ st.live_buffers
    rw [k2']
    rfl
  · intro h2 hh2
    exact k3' h2 hh2
  · exact a3'
  · show st2.next_handle < st2.next_handle + 1
    omega

theorem load_err_spec {ok : Nat → Bool} {st : ElfContext} {b : ElfBlob}
    {e : PvaErr} (h : (pva_load_vpu_app ok st b).2 = .error e) :
    (pva_load_vpu_app ok st b).1.alloctable = st.alloctable ∧
    (pva_load_vpu_app ok st b).1.elf_img = st.elf_img ∧
    st.next_handle ≤ (pva_load_vpu_app ok st b).1.next_handle ∧
    (BuffersFresh st →
      (pva_load_vpu_app ok st b).1.live_buffers = st.live_buffers) := by
  by_cases hhdr : blobHeaderOk b = true
  case neg =>
    have hred : pva_load_vpu_app ok st b = (st, .error .InvalidFormat) := by
      simp [pva_load_vpu_app, hhdr]
    rw [hred]
    exact ⟨rfl, rfl, Nat.le_refl _, fun _ => rfl⟩
  rcases hslot : pva_get_vpu_exe_id st with ⟨st1, r⟩
  rcases r with e0 | exe_id
  · have hred : pva_load_vpu_app ok st b = (st, .error e0) := by
      simp [pva_load_vpu_app, hhdr, hslot]
    rw [hred]
    exact ⟨rfl, rfl, Nat.le_refl _, fun _ => rfl⟩
  obtain ⟨g1, g2, g3, hst1⟩ := get_exe_id_ok hslot
  rcases halloc : allocSegs ok 0 st1 (b.segments.take b.num_declared_segments)
      [] with ⟨st2, hs, suc⟩
  obtain ⟨a1, a2, a3, new, k1, k2, k3⟩ :=
    allocSegs_spec ok (b.segments.take b.num_declared_segments) 0 st1 []
  rw [halloc] at a1 a2 a3 k1 k2 k3
  have a1' : st2.elf_img = st1.elf_img := a1
  have a2' : st2.alloctable = st1.alloctable := a2
  have a3' : st1.next_handle ≤ st2.next_handle := a3
  have k1' : hs = new ++ [] := k1
  have k2' : st2.live_buffers = new ++ st1.live_buffers := k2
  have k3' : ∀ h2 ∈ new, st1.next_handle ≤ h2 ∧ h2 < st2.next_handle := k3
  have hsnew : hs = new := by simpa using k1'
  subst hsnew
  have hrb :
      (pva_free_exe_id (freeBuffers st2 hs) exe_id).alloctable =
          st.alloctable ∧
        (pva_free_exe_id (freeBuffers st2 hs) exe_id).elf_img = st.elf_img ∧
        st.next_handle ≤
          (pva_free_exe_id (freeBuffers st2 hs) exe_id).next_handle ∧
        (BuffersFresh st →
          (pva_free_exe_id (freeBuffers st2 hs) exe_id).live_buffers =
            st.live_buffers) := by
    refine ⟨?_, ?_, ?_, ?_⟩
    · show (freeBuffers st2 hs).alloctable ^^^ (1 <<< exe_id) = st.alloctable
      have : (freeBuffers st2 hs).alloctable = st2.alloctable := rfl
      rw [this, a2', hst1]
      exact set_bit_xor_cancel g2
    · show (freeBuffers st2 hs).elf_img = st.elf_img
      have : (freeBuffers st2 hs).elf_img = st2.elf_img := rfl
      rw [this, a1', hst1]
    · show st.next_handle ≤ (freeBuffers st2 hs).next_handle
      have : (freeBuffers st2 hs).next_handle = st2.next_handle := rfl
      rw [this]
      have : st1.next_handle = st.next_handle := by rw [hst1]
      omega
    · intro hfresh
      show st2.live_buffers.filter (fun h => decide (h ∉ hs)) =
        st.live_buffers
      rw [k2']
      have hlive1 : st1.live_buffers = st.live_buffers := by rw [hst1]
      have hnh1 : st1.next_handle = st.next_handle := by rw [hst1]
      rw [hlive1]
      apply filter_notMem_restore
      · intro x hx; exact hx
      · intro x hx hmem
        have h1 := hfresh x hx
        have h2 := (k3' x hmem).1
        omega
  rcases suc with _ | _
  · have hred : pva_load_vpu_app ok st b =
        (pva_free_exe_id (freeBuffers st2 hs) exe_id,
         .error .ResourceExhausted) := by
      simp [pva_load_vpu_app, hhdr, hslot, halloc]
    rw [hred]
    exact hrb
  by_cases hsym : b.symbols.length > NVPVA_TASK_MAX_SYMBOLS
  case pos =>
    have hred : pva_load_vpu_app ok st b =
        (pva_free_exe_id (freeBuffers st2 hs) exe_id,
         .error .ResourceExhausted) := by
      simp [pva_load_vpu_app, hhdr, hslot, halloc, hsym]
    rw [hred]
    exact hrb
  by_cases hdup : hasDupNames b.symbols = true
  case pos =>
    have hred : pva_load_vpu_app ok st b =
        (pva_free_exe_id (freeBuffers st2 hs) exe_id,
         .error .InvalidFormat) := by
      simp [pva_load_vpu_app, hhdr, hslot, halloc, hsym, hdup]
    rw [hred]
    exact hrb
  exfalso
  have hred : (pva_load_vpu_app ok st b).2 = .ok exe_id := by
    simp [pva_load_vpu_app, hhdr, hslot, halloc, hsym, hdup]
  rw [hred] at h
  cases h

/-! ### Reachability and the occupancy invariant -/

/-- Well-formedness of the image stored in an occupied slot `i`. -/
structure imageWF (i : Nat) (img : pva_elf_image) : Prop where
  id_eq : img.elf_id = i
  has_bin : img.vpu_bin_buffer ≠ none
  num_eq : img.num_symbols = img.sym.length
  ids_dense : ∀ k, (hk : k < img.sym.length) → (img.sym.get ⟨k, hk⟩).symbolID = k

/-- The structural invariant of the slot table. -/
structure ContextInv (st : ElfContext) : Prop where
  mask_lt : st.alloctable < 2 ^ 32
  empty_of_clear :
    ∀ i, st.alloctable.testBit i = false → st.elf_img i = emptyImage i
  wf_of_set : ∀ i, st.alloctable.testBit i = true → imageWF i (st.elf_img i)
  fresh : BuffersFresh st

/-- States reachable from the initialized context through the subsystem's
operations (mutating result states, success or failure alike). -/
inductive Reachable : ElfContext → Prop where
  | init : Reachable pva_vpu_init
  | load (ok : Nat → Bool) (b : ElfBlob) {st : ElfContext} :
      Reachable st → Reachable (pva_load_vpu_app ok st b).1
  | unload (i : Nat) {st : ElfContext} :
      Reachable st → Reachable (pva_unload_vpu_app st i).1
  | unloadAll {st : ElfContext} :
      Reachable st → Reachable (pva_unload_all_apps st)
  | acquireRef (i : Nat) {st : ElfContext} :
      Reachable st → Reachable (pva_task_acquire_ref_vpu_app st i).1
  | releaseRef (i : Nat) {st : ElfContext} :
      Reachable st → Reachable (pva_task_release_ref_vpu_app st i).1
  | releaseUser (i : Nat) {st : ElfContext} :
      Reachable st → Reachable (pva_release_vpu_app st i).1

theorem inv_init : ContextInv pva_vpu_init := by
  refine ⟨by show (0 : Nat) < 2 ^ 32; norm_num, ?_, ?_, ?_⟩
  · intro i _; rfl
  · intro i h
    have h' : Nat.testBit 0 i = true := h
    rw [Nat.zero_testBit] at h'
    cases h'
  · intro h hh
    simp [pva_vpu_init] at hh

theorem inv_load {ok : Nat → Bool} {st : ElfContext} {b : ElfBlob}
    (hinv : ContextInv st) : ContextInv (pva_load_vpu_app ok st b).1 := by
  rcases hres : (pva_load_vpu_app ok st b).2 with e | i
  · obtain ⟨e1, e2, e3, e4⟩ := load_err_spec hres
    refine ⟨by rw [e1]; exact hinv.mask_lt, ?_, ?_, ?_⟩
    · intro j hj
      rw [e1] at hj
      rw [e2]
      exact hinv.empty_of_clear j hj
    · intro j hj
      rw [e1] at hj
      rw [e2]
      exact hinv.wf_of_set j hj
    · intro h hh
      rw [e4 hinv.fresh] at hh
      exact Nat.lt_of_lt_of_le (hinv.fresh h hh) e3
  · obtain ⟨g1, g2, g3, g4, newHs, hbin, f1, f2, f3, f4, f5⟩ :=
      load_ok_spec hres
    refine ⟨?_, ?_, ?_, ?_⟩
    · rw [g4]
      exact set_bit_lt hinv.mask_lt g1
    · intro j hj
      rw [g4, testBit_set_bit] at hj
      rcases eq_or_ne j i with hji | hji
      · rw [if_pos hji] at hj; cases hj
      · rw [if_neg hji] at hj
        rw [f1, updImg_other _ _ hji]
        exact hinv.empty_of_clear j hj
    · intro j hj
      rw [g4, testBit_set_bit] at hj
      rw [f1]
      rcases eq_or_ne j i with hji | hji
      · subst hji
        rw [updImg_same]
        refine ⟨rfl, by simp, ?_, ?_⟩
        · show b.symbols.length = (mkSyms 0 b.symbols).length
          rw [mkSyms_length]
        · intro k hk
          exact mkSyms_symbolID_get b.symbols k hk
      · rw [updImg_other _ _ hji]
        rw [if_neg hji] at hj
        exact hinv.wf_of_set j hj
    · intro h hh
      rw [f2] at hh
      rcases List.mem_cons.mp hh with hh | hh
      · omega
      · rcases List.mem_append.mp hh with hh | hh
        · have := (f3 h hh).2
          omega
        · have := hinv.fresh h hh
          omega

theorem free_slot_inv {st : ElfContext} (hinv : ContextInv st) {i : Nat}
    (hreg : pva_vpu_elf_is_registered st i = true) :
    ContextInv
      (pva_free_exe_id
        { freeBuffers st (imageBuffers (st.elf_img i)) with
            elf_img :=
              updImg (freeBuffers st (imageBuffers (st.elf_img i))).elf_img i
                (emptyImage i) } i) := by
  obtain ⟨hi, hbit⟩ := isReg_true_iff.mp hreg
  refine ⟨?_, ?_, ?_, ?_⟩
  · show st.alloctable ^^^ (1 <<< i) < 2 ^ 32
    exact clear_bit_lt hinv.mask_lt hi
  · intro j hj
    have hj' : (st.alloctable ^^^ (1 <<< i)).testBit j = false := hj
    rw [testBit_clear_bit] at hj'
    rcases eq_or_ne j i with hji | hji
    · subst hji
      show updImg (freeBuffers st (imageBuffers (st.elf_img j))).elf_img j
        (emptyImage j) j = emptyImage j
      rw [updImg_same]
    · rw [if_neg hji] at hj'
      show updImg (freeBuffers st (imageBuffers (st.elf_img i))).elf_img i
        (emptyImage i) j = emptyImage j
      rw [updImg_other _ _ hji]
      exact hinv.empty_of_clear j hj'
  · intro j hj
    have hj' : (st.alloctable ^^^ (1 <<< i)).testBit j = true := hj
    rw [testBit_clear_bit] at hj'
    rcases eq_or_ne j i with hji | hji
    · rw [if_pos hji, hbit] at hj'; cases hj'
    · rw [if_neg hji] at hj'
      show imageWF j (updImg
        (freeBuffers st (imageBuffers (st.elf_img i))).elf_img i
        (emptyImage i) j)
      rw [updImg_other _ _ hji]
      exact hinv.wf_of_set j hj'
  · intro h hh
    have hh' : h ∈ st.live_buffers.filter
        (fun h2 => decide (h2 ∉ imageBuffers (st.elf_img i))) := hh
    have := List.mem_of_mem_filter hh'
    exact hinv.fresh h this

theorem inv_unload {st : ElfContext} {i : Nat} (hinv : ContextInv st) :
    ContextInv (pva_unload_vpu_app st i).1 := by
  rcases hreg : pva_vpu_elf_is_registered st i with _ | _
  · rw [unload_unreg hreg]
    exact hinv
  · rcases href : (st.elf_img i).submit_refcount with _ | n
    · rw [unload_ok hreg href]
      exact free_slot_inv hinv hreg
    · rw [unload_busy hreg (by omega)]
      exact hinv

theorem inv_forceUnloadOne {st : ElfContext} {i : Nat}
    (hinv : ContextInv st) : ContextInv (forceUnloadOne st i) := by
  rcases hreg : pva_vpu_elf_is_registered st i with _ | _
  · rw [forceUnloadOne, hreg]
    simpa using hinv
  · have hred : forceUnloadOne st i =
        pva_free_exe_id
          { freeBuffers st (imageBuffers (st.elf_img i)) with
              elf_img :=
                updImg (freeBuffers st (imageBuffers (st.elf_img i))).elf_img
                  i (emptyImage i) } i := by
      rw [forceUnloadOne, hreg]
      simp
    rw [hred]
    exact free_slot_inv hinv hreg

theorem inv_unloadAll {st : ElfContext} (hinv : ContextInv st) :
    ContextInv (pva_unload_all_apps st) := by
  rw [pva_unload_all_apps]
  generalize List.range MAX_NUM_VPU_EXE = l
  induction l generalizing st with
  | nil => exact hinv
  | cons a rest ih =>
    rw [List.foldl_cons]
    exact ih (inv_forceUnloadOne hinv)

theorem inv_acquire {st : ElfContext} {i : Nat} (hinv : ContextInv st) :
    ContextInv (pva_task_acquire_ref_vpu_app st i).1 := by
  rcases hreg : pva_vpu_elf_is_registered st i with _ | _
  · rw [acquire_unreg hreg]
    exact hinv
  · rw [acquire_ok hreg]
    obtain ⟨hi, hbit⟩ := isReg_true_iff.mp hreg
    refine ⟨hinv.mask_lt, ?_, ?_, hinv.fresh⟩
    · intro j hj
      have hj' : st.alloctable.testBit j = false := hj
      have hji : j ≠ i := by
        intro hc; subst hc; rw [hj'] at hbit; cases hbit
      show updImg st.elf_img i _ j = emptyImage j
      rw [updImg_other _ _ hji]
      exact hinv.empty_of_clear j hj'
    · intro j hj
      have hj' : st.alloctable.testBit j = true := hj
      show imageWF j (updImg st.elf_img i _ j)
      rcases eq_or_ne j i with hji | hji
      · subst hji
        rw [updImg_same]
        obtain ⟨w1, w2, w3, w4⟩ := hinv.wf_of_set j hj'
        exact ⟨w1, w2, w3, w4⟩
      · rw [updImg_other _ _ hji]
        exact hinv.wf_of_set j hj'

theorem inv_releaseRef {st : ElfContext} {i : Nat} (hinv : ContextInv st) :
    ContextInv (pva_task_release_ref_vpu_app st i).1 := by
  rcases href : (st.elf_img i).submit_refcount with _ | n
  · rw [release_underflow href]
    exact hinv
  · rw [release_ok (by omega)]
    have hbit : st.alloctable.testBit i = true := by
      by_contra hc
      have hc' : st.alloctable.testBit i = false := by
        rcases hb : st.alloctable.testBit i with _ | _
        · rfl
        · exact absurd hb hc
      have := hinv.empty_of_clear i hc'
      rw [this] at href
      cases href
    refine ⟨hinv.mask_lt, ?_, ?_, hinv.fresh⟩
    · intro j hj
      have hj' : st.alloctable.testBit j = false := hj
      have hji : j ≠ i := by
        intro hc; subst hc; rw [hj'] at hbit; cases hbit
      show updImg st.elf_img i _ j = emptyImage j
      rw [updImg_other _ _ hji]
      exact hinv.empty_of_clear j hj'
    · intro j hj
      have hj' : st.alloctable.testBit j = true := hj
      show imageWF j (updImg st.elf_img i _ j)
      rcases eq_or_ne j i with hji | hji
      · subst hji
        rw [updImg_same]
        obtain ⟨w1, w2, w3, w4⟩ := hinv.wf_of_set j hj'
        exact ⟨w1, w2, w3, w4⟩
      · rw [updImg_other _ _ hji]
        exact hinv.wf_of_set j hj'

theorem inv_releaseUser {st : ElfContext} {i : Nat} (hinv : ContextInv st) :
    ContextInv (pva_release_vpu_app st i).1 := by
  rcases hreg : pva_vpu_elf_is_registered st i with _ | _
  · rw [releaseUser_unreg hreg]
    exact hinv
  · rw [releaseUser_ok hreg]
    obtain ⟨hi, hbit⟩ := isReg_true_iff.mp hreg
    refine ⟨hinv.mask_lt, ?_, ?_, hinv.fresh⟩
    · intro j hj
      have hj' : st.alloctable.testBit j = false := hj
      have hji : j ≠ i := by
        intro hc; subst hc; rw [hj'] at hbit; cases hbit
      show updImg st.elf_img i _ j = emptyImage j
      rw [updImg_other _ _ hji]
      exact hinv.empty_of_clear j hj'
    · intro j hj
      have hj' : st.alloctable.testBit j = true := hj
      show imageWF j (updImg st.elf_img i _ j)
      rcases eq_or_ne j i with hji | hji
      · subst hji
        rw [updImg_same]
        obtain ⟨w1, w2, w3, w4⟩ := hinv.wf_of_set j hj'
        exact ⟨w1, w2, w3, w4⟩
      · rw [updImg_other _ _ hji]
        exact hinv.wf_of_set j hj'

/-- Every reachable state satisfies the structural invariant. -/
theorem reachable_inv {st : ElfContext} (h : Reachable st) : ContextInv st := by
  induction h with
  | init => exact inv_init
  | load ok b _ ih => exact inv_load ih
  | unload i _ ih => exact inv_unload ih
  | unloadAll _ ih => exact inv_unloadAll ih
  | acquireRef i _ ih => exact inv_acquire ih
  | releaseRef i _ ih => exact inv_releaseRef ih
  | releaseUser i _ ih => exact inv_releaseUser ih

/-! ### Concrete scenario material -/

/-- Allocation oracle under which every DMA allocation succeeds. -/
def alwaysOk : Nat → Bool := fun _ => true

/-- Allocation oracle under which every DMA allocation fails. -/
def neverOk : Nat → Bool := fun _ => false

/-- Name of the single symbol of `goodBlob`. -/
def goodSymName : String := "s"

/-- A minimal well-formed input blob: one segment, one symbol named `s`. -/
def goodBlob : ElfBlob :=
  { magic := PVA_ELF_MAGIC
    version := PVA_ELF_VERSION
    num_declared_segments := 1
    segments := [[0]]
    symbols := [{ name := goodSymName, size := 4, addr := 0, offset := 0 }] }

/-- The context after `n` successive loads of `goodBlob` from the freshly
initialized context. -/
def loadIter : Nat → ElfContext
  | 0 => pva_vpu_init
  | n + 1 => (pva_load_vpu_app alwaysOk (loadIter n) goodBlob).1

/-! ### Claim theorems -/

/-- C6: `acquireTaskRef(id)` fails with `NotFound` and changes no state when
the image is not registered; when registered it increments the image's task
reference count by exactly one, touches no other state, and returns
success. -/
theorem acquire_task_ref_spec (st : ElfContext) (id : Nat) :
    (pva_vpu_elf_is_registered st id = false →
      pva_task_acquire_ref_vpu_app st id = (st, .error .NotFound)) ∧
    (pva_vpu_elf_is_registered st id = true →
      (pva_task_acquire_ref_vpu_app st id).2 = .ok () ∧
      ((pva_task_acquire_ref_vpu_app st id).1.elf_img id).submit_refcount =
        (st.elf_img id).submit_refcount + 1 ∧
      (pva_task_acquire_ref_vpu_app st id).1.alloctable = st.alloctable ∧
      (pva_task_acquire_ref_vpu_app st id).1.live_buffers =
        st.live_buffers ∧
      ((pva_task_acquire_ref_vpu_app st id).1.elf_img id).sym =
        (st.elf_img id).sym ∧
      ∀ j, j ≠ id →
        (pva_task_acquire_ref_vpu_app st id).1.elf_img j = st.elf_img j) := by
  constructor
  · intro h
    exact acquire_unreg h
  · intro h
    rw [acquire_ok h]
    refine ⟨rfl, ?_, rfl, rfl, ?_, ?_⟩
    · show (updImg st.elf_img id _ id).submit_refcount = _
      rw [updImg_same]
    · show (updImg st.elf_img id _ id).sym = _
      rw [updImg_same]
    · intro j hj
      show updImg st.elf_img id _ j = st.elf_img j
      rw [updImg_other _ _ hj]

/-- C7: `releaseTaskRef(id)` decrements the image's task reference count by
exactly one; when the decrement would take the counter below zero it fails
with `InvalidState`, leaving the whole state (in particular the counter)
unchanged. -/
theorem release_task_ref_spec (st : ElfContext) (id : Nat) :
    ((st.elf_img id).submit_refcount = 0 →
      pva_task_release_ref_vpu_app st id = (st, .error .InvalidState)) ∧
    (0 < (st.elf_img id).submit_refcount →
      (pva_task_release_ref_vpu_app st id).2 = .ok () ∧
      ((pva_task_release_ref_vpu_app st id).1.elf_img id).submit_refcount =
        (st.elf_img id).submit_refcount - 1 ∧
      (pva_task_release_ref_vpu_app st id).1.alloctable = st.alloctable ∧
      (pva_task_release_ref_vpu_app st id).1.live_buffers =
        st.live_buffers ∧
      ((pva_task_release_ref_vpu_app st id).1.elf_img id).sym =
        (st.elf_img id).sym ∧
      ∀ j, j ≠ id →
        (pva_task_release_ref_vpu_app st id).1.elf_img j = st.elf_img j) := by
  constructor
  · intro h
    exact release_underflow h
  · intro h
    rw [release_ok h]
    refine ⟨rfl, ?_, rfl, rfl, ?_, ?_⟩
    · show (updImg st.elf_img id _ id).submit_refcount = _
      rw [updImg_same]
    · show (updImg st.elf_img id _ id).sym = _
      rw [updImg_same]
    · intro j hj
      show updImg st.elf_img id _ j = st.elf_img j
      rw [updImg_other _ _ hj]

/-- C8: `resolveByName` (`pva_get_sym_id`) returns a matching symbol's
`(symbolId, size)` when the image is registered and the name is present in
that image's symbol list, and fails with `NotFound` when the id is
unregistered or the name is absent. -/
theorem resolve_by_name_spec (st : ElfContext) (id : Nat) (name : String) :
    (pva_vpu_elf_is_registered st id = true →
      (∃ s ∈ (st.elf_img id).sym, s.symbol_name = name) →
      ∃ s2 ∈ (st.elf_img id).sym, s2.symbol_name = name ∧
        pva_get_sym_id st id name = .ok (s2.symbolID, s2.size)) ∧
    ((pva_vpu_elf_is_registered st id = false ∨
        ∀ s ∈ (st.elf_img id).sym, s.symbol_name ≠ name) →
      pva_get_sym_id st id name = .error .NotFound) := by
  constructor
  · intro hreg hex
    rw [pva_get_sym_id, if_pos hreg]
    rcases hf : (st.elf_img id).sym.find?
        (fun s => s.symbol_name == name) with _ | s2
    · exfalso
      rw [List.find?_eq_none] at hf
      obtain ⟨s, hs, hname⟩ := hex
      exact hf s hs (by simp [hname])
    · rw [hf]
      refine ⟨s2, List.mem_of_find?_eq_some hf, ?_, rfl⟩
      have := List.find?_some hf
      simpa using this
  · intro hcase
    rcases hcase with hreg | habs
    · rw [pva_get_sym_id, if_neg (by rw [hreg]; exact Bool.false_ne_true)]
    · rw [pva_get_sym_id]
      rcases hreg : pva_vpu_elf_is_registered st id with _ | _
      · rw [if_neg Bool.false_ne_true]
      · rw [if_pos rfl]
        have hf : (st.elf_img id).sym.find?
            (fun s => s.symbol_name == name) = none := by
          rw [List.find?_eq_none]
          intro s hs
          simpa using habs s hs
        rw [hf]

/-- C10: the registration query is total over the whole identifier type —
under checked C shift semantics it never commits undefined behaviour (the
range check short-circuits before the shift), and for every out-of-range id
it returns `false`. -/
theorem is_registered_total_and_safe (st : ElfContext) (exe_id : Nat) :
    is_registered_checked st exe_id =
      some (pva_vpu_elf_is_registered st exe_id) ∧
    (MAX_NUM_VPU_EXE ≤ exe_id →
      pva_vpu_elf_is_registered st exe_id = false) := by
  constructor
  · by_cases h : exe_id < MAX_NUM_VPU_EXE
    · have h32 : exe_id < 32 := h
      rw [is_registered_checked, if_pos h, shrU32Checked, if_pos h32,
        pva_vpu_elf_is_registered, if_pos h]
    · rw [is_registered_checked, if_neg h, pva_vpu_elf_is_registered,
        if_neg h]
  · intro h
    exact isReg_oob h

/-- C2: load is atomic all-or-nothing — on every failing input the occupancy
mask, the free-slot count, the live DMA-buffer set and the whole slot array
are exactly as before the call, so no symbol from the failed load is
resolvable (all symbol queries answer as before the call). -/
theorem load_atomic_rollback (ok : Nat → Bool) (st : ElfContext) (b : ElfBlob)
    (e : PvaErr) (hfresh : BuffersFresh st)
    (h : (pva_load_vpu_app ok st b).2 = .error e) :
    (pva_load_vpu_app ok st b).1.alloctable = st.alloctable ∧
    freeSlotCount (pva_load_vpu_app ok st b).1 = freeSlotCount st ∧
    (pva_load_vpu_app ok st b).1.live_buffers = st.live_buffers ∧
    (pva_load_vpu_app ok st b).1.elf_img = st.elf_img ∧
    (∀ id name, pva_get_sym_id (pva_load_vpu_app ok st b).1 id name =
      pva_get_sym_id st id name) := by
  obtain ⟨e1, e2, e3, e4⟩ := load_err_spec h
  refine ⟨e1, ?_, e4 hfresh, e2, ?_⟩
  · rw [freeSlotCount, freeSlotCount, e1]
  · intro id name
    rw [pva_get_sym_id, pva_get_sym_id, pva_vpu_elf_is_registered,
      pva_vpu_elf_is_registered, e1, e2]

/-- Witness for C2: with an allocator that refuses every allocation, loading
the minimal blob into the fresh context fails and rolls back completely. -/
theorem load_atomic_rollback_witness :
    BuffersFresh pva_vpu_init ∧
    (pva_load_vpu_app neverOk pva_vpu_init goodBlob).2 =
      .error .ResourceExhausted ∧
    (pva_load_vpu_app neverOk pva_vpu_init goodBlob).1.alloctable =
      pva_vpu_init.alloctable := by
  have hfresh : BuffersFresh pva_vpu_init := by
    intro h hh
    simp [pva_vpu_init] at hh
  have h2 : (pva_load_vpu_app neverOk pva_vpu_init goodBlob).2 =
      .error .ResourceExhausted := by decide
  exact ⟨hfresh, h2,
    (load_atomic_rollback neverOk pva_vpu_init goodBlob
      .ResourceExhausted hfresh h2).1⟩

/-- C5: in every reachable state, the registration query answers exactly the
occupancy-mask bit, and bit `i` is set precisely when slot `i` still holds a
loaded (not yet freed) image. -/
theorem occupancy_bit_invariant (st : ElfContext) (h : Reachable st)
    (i : Nat) :
    pva_vpu_elf_is_registered st i = st.alloctable.testBit i ∧
    (st.alloctable.testBit i = true ↔ st.elf_img i ≠ emptyImage i) := by
  have hinv := reachable_inv h
  constructor
  · by_cases hi : i < MAX_NUM_VPU_EXE
    · exact isReg_eq_testBit st hi
    · rw [isReg_oob (Nat.not_lt.mp hi)]
      have hlt : st.alloctable < 2 ^ i := by
        calc st.alloctable < 2 ^ 32 := hinv.mask_lt
        _ ≤ 2 ^ i := Nat.pow_le_pow_right (by norm_num)
          (by simpa [MAX_NUM_VPU_EXE] using Nat.not_lt.mp hi)
      exact (Nat.testBit_lt_two_pow hlt).symm
  · constructor
    · intro hset heq
      have hwf := hinv.wf_of_set i hset
      have := hwf.has_bin
      rw [heq] at this
      exact this rfl
    · intro hne
      rcases hb : st.alloctable.testBit i with _ | _
      · exact absurd (hinv.empty_of_clear i hb) hne
      · rfl

/-- Witness for C5: the freshly initialized context is reachable; there the
query and the mask bit agree on slot 0 and the slot is empty. -/
theorem occupancy_bit_invariant_witness :
    Reachable pva_vpu_init ∧
    pva_vpu_elf_is_registered pva_vpu_init 0 =
      pva_vpu_init.alloctable.testBit 0 :=
  ⟨Reachable.init, (occupancy_bit_invariant pva_vpu_init Reachable.init 0).1⟩

/-- Component-wise description of a successful unload. -/
theorem unload_ok_components {st : ElfContext} {i : Nat}
    (hreg : pva_vpu_elf_is_registered st i = true)
    (href : (st.elf_img i).submit_refcount = 0) :
    (pva_unload_vpu_app st i).2 = .ok () ∧
    (pva_unload_vpu_app st i).1.alloctable =
      st.alloctable ^^^ (1 <<< i) ∧
    (pva_unload_vpu_app st i).1.live_buffers =
      st.live_buffers.filter
        (fun h => decide (h ∉ imageBuffers (st.elf_img i))) ∧
    (pva_unload_vpu_app st i).1.elf_img i = emptyImage i ∧
    (∀ j, j ≠ i → (pva_unload_vpu_app st i).1.elf_img j = st.elf_img j) ∧
    (pva_unload_vpu_app st i).1.next_handle = st.next_handle := by
  rw [unload_ok hreg href]
  refine ⟨rfl, rfl, rfl, ?_, ?_, rfl⟩
  · show updImg _ i (emptyImage i) i = emptyImage i
    exact updImg_same _ _ _
  · intro j hj
    show updImg _ i (emptyImage i) j = _
    rw [updImg_other _ _ hj]
    rfl

/-- C4: a successful load assigns dense symbol IDs `0..N-1`, in the order the
symbol records appear in the parsed segment, and `resolveOffset`
(`pva_get_sym_offset`) fails with `NotFound` exactly when the queried id is
outside `[0, numSymbols)` for that image. -/
theorem load_symbol_ids_dense (ok : Nat → Bool) (st : ElfContext)
    (b : ElfBlob) (id : Nat) (h : (pva_load_vpu_app ok st b).2 = .ok id) :
    ((pva_load_vpu_app ok st b).1.elf_img id).num_symbols =
      b.symbols.length ∧
    ((pva_load_vpu_app ok st b).1.elf_img id).sym.map
      pva_elf_symbolId.symbolID = List.range b.symbols.length ∧
    ((pva_load_vpu_app ok st b).1.elf_img id).sym.map
      pva_elf_symbolId.symbol_name = b.symbols.map SymRecord.name ∧
    (∀ k, pva_get_sym_offset (pva_load_vpu_app ok st b).1 id k =
        .error .NotFound ↔ b.symbols.length ≤ k) ∧
    (∀ k, k < b.symbols.length →
      ∃ a, pva_get_sym_offset (pva_load_vpu_app ok st b).1 id k = .ok a) := by
  obtain ⟨g1, g2, g3, g4, newHs, hbin, f1, f2, f3, f4, f5⟩ := load_ok_spec h
  have himg : (pva_load_vpu_app ok st b).1.elf_img id =
      { vpu_bin_buffer := some hbin
        vpu_segments_buffer := newHs.reverse
        elf_id := id
        user_registered := true
        submit_refcount := 0
        num_symbols := b.symbols.length
        sym := mkSyms 0 b.symbols
        symbol_size_total := (b.symbols.map SymRecord.size).sum } := by
    rw [f1, updImg_same]
  have hreg : pva_vpu_elf_is_registered (pva_load_vpu_app ok st b).1 id =
      true := by
    refine isReg_true_iff.mpr ⟨g1, ?_⟩
    rw [g4, testBit_set_bit, if_pos rfl]
  refine ⟨by rw [himg], ?_, ?_, ?_, ?_⟩
  · rw [himg]
    exact mkSyms_map_symbolID b.symbols
  · rw [himg]
    exact mkSyms_map_name b.symbols
  · intro k
    rw [pva_get_sym_offset, if_pos hreg, himg]
    show (match (mkSyms 0 b.symbols).get? k with
      | some s => Except.ok s.addr
      | none => Except.error PvaErr.NotFound) = .error .NotFound ↔
        b.symbols.length ≤ k
    by_cases hk : k < b.symbols.length
    · have hk' : k < (mkSyms 0 b.symbols).length := by
        rw [mkSyms_length]; exact hk
      rw [List.get?_eq_get hk']
      constructor
      · intro hc; cases hc
      · intro hc; omega
    · have hk' : (mkSyms 0 b.symbols).length ≤ k := by
        rw [mkSyms_length]; omega
      rw [List.get?_len_le hk']
      constructor
      · intro _; omega
      · intro _; rfl
  · intro k hk
    rw [pva_get_sym_offset, if_pos hreg, himg]
    have hk' : k < (mkSyms 0 b.symbols).length := by
      rw [mkSyms_length]; exact hk
    refine ⟨((mkSyms 0 b.symbols).get ⟨k, hk'⟩).addr, ?_⟩
    show (match (mkSyms 0 b.symbols).get? k with
      | some s => Except.ok s.addr
      | none => Except.error PvaErr.NotFound) = _
    rw [List.get?_eq_get hk']

/-- Witness for C4: loading the minimal one-symbol blob into the fresh
context yields id 0 with exactly one symbol. -/
theorem load_symbol_ids_dense_witness :
    (pva_load_vpu_app alwaysOk pva_vpu_init goodBlob).2 = .ok 0 ∧
    ((pva_load_vpu_app alwaysOk pva_vpu_init goodBlob).1.elf_img
      0).num_symbols = goodBlob.symbols.length := by
  have h : (pva_load_vpu_app alwaysOk pva_vpu_init goodBlob).2 = .ok 0 := by
    decide
  exact ⟨h, (load_symbol_ids_dense alwaysOk pva_vpu_init goodBlob 0 h).1⟩

/-- C9: loading an image and then unloading it (its task reference count is
zero right after the load) returns the slot table to its exact pre-load
occupancy state — same mask, same free-slot count, same live DMA-buffer set —
and no symbol is queryable by the freed id. -/
theorem load_unload_roundtrip (ok : Nat → Bool) (st : ElfContext)
    (b : ElfBlob) (id : Nat) (hfresh : BuffersFresh st)
    (h : (pva_load_vpu_app ok st b).2 = .ok id) :
    (pva_unload_vpu_app (pva_load_vpu_app ok st b).1 id).2 = .ok () ∧
    (pva_unload_vpu_app (pva_load_vpu_app ok st b).1 id).1.alloctable =
      st.alloctable ∧
    freeSlotCount (pva_unload_vpu_app (pva_load_vpu_app ok st b).1 id).1 =
      freeSlotCount st ∧
    (pva_unload_vpu_app (pva_load_vpu_app ok st b).1 id).1.live_buffers =
      st.live_buffers ∧
    (∀ name, pva_get_sym_id
      (pva_unload_vpu_app (pva_load_vpu_app ok st b).1 id).1 id name =
        .error .NotFound) ∧
    (∀ k, pva_get_sym_offset
      (pva_unload_vpu_app (pva_load_vpu_app ok st b).1 id).1 id k =
        .error .NotFound) := by
  obtain ⟨g1, g2, g3, g4, newHs, hbin, f1, f2, f3, f4, f5⟩ := load_ok_spec h
  have hreg : pva_vpu_elf_is_registered (pva_load_vpu_app ok st b).1 id =
      true := by
    refine isReg_true_iff.mpr ⟨g1, ?_⟩
    rw [g4, testBit_set_bit, if_pos rfl]
  have himg : (pva_load_vpu_app ok st b).1.elf_img id =
      { vpu_bin_buffer := some hbin
        vpu_segments_buffer := newHs.reverse
        elf_id := id
        user_registered := true
        submit_refcount := 0
        num_symbols := b.symbols.length
        sym := mkSyms 0 b.symbols
        symbol_size_total := (b.symbols.map SymRecord.size).sum } := by
    rw [f1, updImg_same]
  have href : ((pva_load_vpu_app ok st b).1.elf_img id).submit_refcount =
      0 := by
    rw [himg]
  have hbuf : imageBuffers ((pva_load_vpu_app ok st b).1.elf_img id) =
      newHs.reverse ++ [hbin] := by
    rw [himg, imageBuffers]
  obtain ⟨u1, u2, u3, u4, u5, u6⟩ := unload_ok_components hreg href
  have hmask : (pva_unload_vpu_app (pva_load_vpu_app ok st b).1
      id).1.alloctable = st.alloctable := by
    rw [u2, g4]
    exact set_bit_xor_cancel g2
  have hlive : (pva_unload_vpu_app (pva_load_vpu_app ok st b).1
      id).1.live_buffers = st.live_buffers := by
    rw [u3, hbuf, f2]
    show ((hbin :: newHs) ++ st.live_buffers).filter
      (fun h2 => decide (h2 ∉ newHs.reverse ++ [hbin])) = st.live_buffers
    apply filter_notMem_restore
    · intro x hx
      rcases List.mem_cons.mp hx with hx | hx
      · subst hx
        apply List.mem_append.mpr
        right
        simp
      · apply List.mem_append.mpr
        left
        rw [List.mem_reverse]
        exact hx
    · intro x hx hmem
      have hx' := hfresh x hx
      rcases List.mem_append.mp hmem with hm | hm
      · rw [List.mem_reverse] at hm
        have := (f3 x hm).1
        omega
      · have : x = hbin := by simpa using hm
        omega
  have hunreg : pva_vpu_elf_is_registered
      (pva_unload_vpu_app (pva_load_vpu_app ok st b).1 id).1 id = false := by
    rw [isReg_eq_testBit _ g1, hmask]
    exact g2
  refine ⟨u1, hmask, ?_, hlive, ?_, ?_⟩
  · rw [freeSlotCount, freeSlotCount, hmask]
  · intro name
    rw [pva_get_sym_id, if_neg (by rw [hunreg]; exact Bool.false_ne_true)]
  · intro k
    rw [pva_get_sym_offset, if_neg (by rw [hunreg]; exact Bool.false_ne_true)]

/-- Witness for C9: load then unload of the minimal blob on the fresh
context restores the empty occupancy mask. -/
theorem load_unload_roundtrip_witness :
    BuffersFresh pva_vpu_init ∧
    (pva_load_vpu_app alwaysOk pva_vpu_init goodBlob).2 = .ok 0 ∧
    (pva_unload_vpu_app (pva_load_vpu_app alwaysOk pva_vpu_init goodBlob).1
      0).1.alloctable = pva_vpu_init.alloctable := by
  have hfresh : BuffersFresh pva_vpu_init := by
    intro h hh
    simp [pva_vpu_init] at hh
  have h : (pva_load_vpu_app alwaysOk pva_vpu_init goodBlob).2 = .ok 0 := by
    decide
  exact ⟨hfresh, h,
    (load_unload_roundtrip alwaysOk pva_vpu_init goodBlob 0 hfresh h).2.1⟩

/-- The load → acquire → unload → release → unload sequence, used by C1. -/
theorem ref_gate_sequence {ok : Nat → Bool} {st : ElfContext} {b : ElfBlob}
    {id : Nat} (h : (pva_load_vpu_app ok st b).2 = .ok id) :
    (pva_task_acquire_ref_vpu_app (pva_load_vpu_app ok st b).1 id).2 =
      .ok () ∧
    pva_unload_vpu_app
      (pva_task_acquire_ref_vpu_app (pva_load_vpu_app ok st b).1 id).1 id =
      ((pva_task_acquire_ref_vpu_app (pva_load_vpu_app ok st b).1 id).1,
       .error .ResourceBusy) ∧
    (pva_task_release_ref_vpu_app
      (pva_task_acquire_ref_vpu_app (pva_load_vpu_app ok st b).1 id).1
      id).2 = .ok () ∧
    (pva_unload_vpu_app
      (pva_task_release_ref_vpu_app
        (pva_task_acquire_ref_vpu_app (pva_load_vpu_app ok st b).1 id).1
        id).1 id).2 = .ok () := by
  obtain ⟨g1, g2, g3, g4, newHs, hbin, f1, f2, f3, f4, f5⟩ := load_ok_spec h
  have hregA : pva_vpu_elf_is_registered (pva_load_vpu_app ok st b).1 id =
      true := by
    refine isReg_true_iff.mpr ⟨g1, ?_⟩
    rw [g4, testBit_set_bit, if_pos rfl]
  have himgA0 :
      ((pva_load_vpu_app ok st b).1.elf_img id).submit_refcount = 0 := by
    rw [f1, updImg_same]
  generalize hA : (pva_load_vpu_app ok st b).1 = A at hregA himgA0 ⊢
  have hacq := acquire_ok hregA
  have hregB : pva_vpu_elf_is_registered
      (pva_task_acquire_ref_vpu_app A id).1 id = true := by
    rw [hacq]
    exact hregA
  have hrefB : (((pva_task_acquire_ref_vpu_app A id).1.elf_img
      id).submit_refcount) = 1 := by
    rw [hacq]
    show (updImg A.elf_img id { A.elf_img id with
      submit_refcount := (A.elf_img id).submit_refcount + 1 }
        id).submit_refcount = 1
    rw [updImg_same]
    show (A.elf_img id).submit_refcount + 1 = 1
    rw [himgA0]
  have hpos : 0 < ((pva_task_acquire_ref_vpu_app A id).1.elf_img
      id).submit_refcount := by
    rw [hrefB]
    omega
  have hrel := release_ok hpos
  have hregC : pva_vpu_elf_is_registered
      (pva_task_release_ref_vpu_app
        (pva_task_acquire_ref_vpu_app A id).1 id).1 id = true := by
    rw [hrel]
    exact hregB
  have hrefC : (((pva_task_release_ref_vpu_app
      (pva_task_acquire_ref_vpu_app A id).1 id).1.elf_img
        id).submit_refcount) = 0 := by
    rw [hrel]
    show (updImg (pva_task_acquire_ref_vpu_app A id).1.elf_img id
      { (pva_task_acquire_ref_vpu_app A id).1.elf_img id with
        submit_refcount :=
          ((pva_task_acquire_ref_vpu_app A id).1.elf_img
            id).submit_refcount - 1 } id).submit_refcount = 0
    rw [updImg_same]
    show ((pva_task_acquire_ref_vpu_app A id).1.elf_img
      id).submit_refcount - 1 = 0
    rw [hrefB]
  refine ⟨by rw [hacq], ?_, by rw [hrel], ?_⟩
  · exact unload_busy hregB hpos
  · exact (unload_ok_components hregC hrefC).1

/-- C1: unload is gated on the task reference count — it fails with
`ResourceBusy` (changing nothing) while the count is positive, succeeds once
the count is zero (emptying the slot, dropping the image's buffers from the
live set and clearing the occupancy bit), and in particular in the sequence
load → acquireTaskRef → unload → releaseTaskRef the unload fails with
`ResourceBusy` while an unload after the release succeeds. -/
theorem unload_reference_gated :
    (∀ st id, pva_vpu_elf_is_registered st id = true →
      0 < (st.elf_img id).submit_refcount →
      pva_unload_vpu_app st id = (st, .error .ResourceBusy)) ∧
    (∀ st id, pva_vpu_elf_is_registered st id = true →
      (st.elf_img id).submit_refcount = 0 →
      (pva_unload_vpu_app st id).2 = .ok () ∧
      (pva_unload_vpu_app st id).1.elf_img id = emptyImage id ∧
      pva_vpu_elf_is_registered (pva_unload_vpu_app st id).1 id = false ∧
      ∀ h2, h2 ∈ imageBuffers (st.elf_img id) →
        h2 ∉ (pva_unload_vpu_app st id).1.live_buffers) ∧
    (∀ ok st b id, (pva_load_vpu_app ok st b).2 = .ok id →
      (pva_task_acquire_ref_vpu_app (pva_load_vpu_app ok st b).1 id).2 =
        .ok () ∧
      pva_unload_vpu_app
        (pva_task_acquire_ref_vpu_app (pva_load_vpu_app ok st b).1 id).1
        id =
        ((pva_task_acquire_ref_vpu_app (pva_load_vpu_app ok st b).1 id).1,
         .error .ResourceBusy) ∧
      (pva_task_release_ref_vpu_app
        (pva_task_acquire_ref_vpu_app (pva_load_vpu_app ok st b).1 id).1
        id).2 = .ok () ∧
      (pva_unload_vpu_app
        (pva_task_release_ref_vpu_app
          (pva_task_acquire_ref_vpu_app (pva_load_vpu_app ok st b).1 id).1
          id).1 id).2 = .ok ()) := by
  refine ⟨?_, ?_, ?_⟩
  · intro st id hreg hpos
    exact unload_busy hreg hpos
  · intro st id hreg href
    obtain ⟨u1, u2, u3, u4, u5, u6⟩ := unload_ok_components hreg href
    obtain ⟨hid, hbit⟩ := isReg_true_iff.mp hreg
    refine ⟨u1, u4, ?_, ?_⟩
    · rw [isReg_eq_testBit _ hid, u2, testBit_clear_bit, if_pos rfl, hbit]
      rfl
    · intro h2 hmem hcontra
      rw [u3] at hcontra
      have := (List.mem_filter.mp hcontra).2
      simp only [decide_eq_true_iff] at this
      exact this hmem
  · intro ok st b id h
    exact ref_gate_sequence h

/-- C3: slot allocation hands out the lowest-numbered clear bit of the
occupancy mask and sets it, failing with `ResourceExhausted` exactly when
all `MAX_NUM_VPU_EXE` slots are occupied; concretely, loading
`MAX_NUM_VPU_EXE + 1` valid images in sequence succeeds for the first 32
(ids 0..31), fails only the last with `ResourceExhausted`, and leaves the
first 32 images resolvable. -/
theorem slot_alloc_lowest_clear_and_exhaustion :
    (∀ st st' i, pva_get_vpu_exe_id st = (st', .ok i) →
      i < MAX_NUM_VPU_EXE ∧ st.alloctable.testBit i = false ∧
      (∀ j, j < i → st.alloctable.testBit j = true) ∧
      st'.alloctable = st.alloctable ||| (1 <<< i)) ∧
    (∀ st, (pva_get_vpu_exe_id st).2 = .error .ResourceExhausted ↔
      ∀ j, j < MAX_NUM_VPU_EXE → st.alloctable.testBit j = true) ∧
    (∀ i, i < MAX_NUM_VPU_EXE →
      (pva_load_vpu_app alwaysOk (loadIter i) goodBlob).2 = .ok i) ∧
    (pva_load_vpu_app alwaysOk (loadIter MAX_NUM_VPU_EXE) goodBlob).2 =
      .error .ResourceExhausted ∧
    (∀ i, i < MAX_NUM_VPU_EXE →
      pva_get_sym_id
        (pva_load_vpu_app alwaysOk (loadIter MAX_NUM_VPU_EXE) goodBlob).1
        i goodSymName = .ok (0, 4)) := by
  refine ⟨?_, ?_, ?_, ?_, ?_⟩
  · intro st st' i h
    obtain ⟨a, b, c, d⟩ := get_exe_id_ok h
    exact ⟨a, b, c, by rw [d]⟩
  · intro st
    exact get_exe_id_exhausted
  · decide
  · decide
  · decide

end PvaVpuExe